import Mathlib

/-!
Verification of the attributed-text rendering core of `view_curses.cc`.

The development shallowly embeds the data model and operations of the
source file: `lab_color::deltaE`, `_xterm_colors::match_color`,
`rgb_color::from_str`, `attr_line_t::insert` (including its word-wrap
unit scanner), `attr_line_t::subline`, `attr_line_t::split_lines`, and
the attribute-range resolution step of `view_curses::mvwattrline`.
Floating-point arithmetic is modelled over the exact reals; C++ strings
are modelled as `List Char`; machine integers as `Int`/`Nat`.

Operations of `line_range` (`shift`, `length`, `intersects`,
`intersection`) and the helper `shift_string_attrs` are declared in
headers that are not part of the sources; those are modelled from the
specification, as marked in their doc comments.
-/

set_option maxHeartbeats 1000000

/-- Perceptual L*a*b* color: the three `double` fields of `lab_color`,
modelled over the exact reals. -/
structure lab_color where
  lc_l : ℝ
  lc_a : ℝ
  lc_b : ℝ

/-- The chroma `sqrt(a*a + b*b)` computed for each argument of
`lab_color::deltaE` (the locals `c1` and `c2` of the source). -/
noncomputable def chroma (c : lab_color) : ℝ :=
  Real.sqrt (c.lc_a * c.lc_a + c.lc_b * c.lc_b)

/-- The clamping pattern `t < 0.0 ? 0.0 : sqrt(t)` that `lab_color::deltaE`
applies both to `deltaH` and to the final sum `i`. -/
noncomputable def clamp_sqrt (t : ℝ) : ℝ :=
  if t < 0 then 0 else Real.sqrt t

/-- The `deltaH` local of `lab_color::deltaE`:
`deltaA*deltaA + deltaB*deltaB - deltaC*deltaC`, clamped to `0` when
negative and passed through `sqrt` otherwise. -/
noncomputable def deltaH (x y : lab_color) : ℝ :=
  clamp_sqrt ((x.lc_a - y.lc_a) * (x.lc_a - y.lc_a)
      + (x.lc_b - y.lc_b) * (x.lc_b - y.lc_b)
      - (chroma x - chroma y) * (chroma x - chroma y))

/-- `lab_color::deltaE`: CIE94-style distance.  The scale factors `sc` and
`sh` are computed from `c1`, the chroma of `this` (the first argument),
exactly as in the source; the final sum is clamped to `≥ 0` before the
square root. -/
noncomputable def deltaE (x y : lab_color) : ℝ :=
  let dL := x.lc_l - y.lc_l
  let dC := chroma x - chroma y
  let sc := 1 + 0.045 * chroma x
  let sh := 1 + 0.015 * chroma x
  clamp_sqrt ((dL / 1) * (dL / 1) + (dC / sc) * (dC / sc)
      + (deltaH x y / sh) * (deltaH x y / sh))

/-- `rgb_color`: three 8-bit channels, modelled as natural numbers. -/
structure rgb_color where
  rc_r : Nat
  rc_g : Nat
  rc_b : Nat
deriving DecidableEq, Repr

/-- `xterm_color`: one palette entry — numeric id, name, RGB value and the
precomputed Lab value (`xc_lab_color = lab_color(xc_color)` is established
by the `_xterm_colors` constructor; the table itself is external data). -/
structure xterm_color where
  xc_id : Int
  xc_name : String
  xc_color : rgb_color
  xc_lab_color : lab_color

/-- The scan loop of `_xterm_colors::match_color`: carries the running
minimum distance `lowest` and its id `lowest_id`; the first entry is
always taken (the `lowest_id == -1` branch), later entries only on a
strictly smaller distance. -/
noncomputable def match_color_go (to_match : lab_color) :
    List xterm_color → ℝ → Int → Int
  | [], _, lowest_id => lowest_id
  | xc :: rest, lowest, lowest_id =>
    let xc_delta := deltaE xc.xc_lab_color to_match
    if lowest_id = -1 then
      match_color_go to_match rest xc_delta xc.xc_id
    else if xc_delta < lowest then
      match_color_go to_match rest xc_delta xc.xc_id
    else
      match_color_go to_match rest lowest lowest_id

/-- `_xterm_colors::match_color`: linear scan of the palette starting from
`lowest = 1000.0`, `lowest_id = -1`. -/
noncomputable def match_color (palette : List xterm_color)
    (to_match : lab_color) : Int :=
  match_color_go to_match palette 1000 (-1)

/-- Value of one hexadecimal digit, as consumed by the `sscanf` format
`%1hx` of `rgb_color::from_str` (ASCII codes: `0`–`9` are 48–57,
`a`–`f` are 97–102, `A`–`F` are 65–70). -/
def hexVal (c : Char) : Option Nat :=
  if 48 ≤ c.toNat ∧ c.toNat ≤ 57 then some (c.toNat - 48)
  else if 97 ≤ c.toNat ∧ c.toNat ≤ 102 then some (c.toNat - 87)
  else if 65 ≤ c.toNat ∧ c.toNat ≤ 70 then some (c.toNat - 55)
  else none

/-- The C classification `isspace` in the C locale (space, `\t`, `\n`,
vertical tab, form feed, `\r`), as skipped by every `sscanf` `%x`
conversion. -/
def c_isspace (c : Char) : Bool :=
  c.toNat = 32 || (9 ≤ c.toNat && c.toNat ≤ 13)

/-- The leading-whitespace skip a `%x` conversion performs before reading
its input item (the skipped characters do not count toward the field
width). -/
def skip_ws : List Char → List Char
  | [] => []
  | c :: rest => if c_isspace c then skip_ws rest else c :: rest

/-- One `sscanf` `%2hx` conversion: skip whitespace, then read the input
item within a field width of 2 — an optional sign (counting toward the
width, `-` negating the value modulo `2^16` as it is stored through an
`unsigned short`), a `0x`/`0X` prefix exhausting the width (value 0), or
one or two hexadecimal digits.  Returns the value and the unconsumed
input, or `none` on a matching failure (end of input, no digit after a
sign, or a character that is neither sign nor digit). -/
def scan_hx2 (s : List Char) : Option (Nat × List Char) :=
  match skip_ws s with
  | [] => none
  | c1 :: rest1 =>
    match hexVal c1 with
    | some v1 =>
      if c1 = '0' then
        match rest1 with
        | c2 :: rest2 =>
          if c2 = 'x' ∨ c2 = 'X' then some (0, rest2)
          else
            match hexVal c2 with
            | some v2 => some (16 * v1 + v2, rest2)
            | none => some (v1, c2 :: rest2)
        | [] => some (v1, [])
      else
        match rest1 with
        | c2 :: rest2 =>
          match hexVal c2 with
          | some v2 => some (16 * v1 + v2, rest2)
          | none => some (v1, c2 :: rest2)
        | [] => some (v1, [])
    | none =>
      if c1 = '+' ∨ c1 = '-' then
        match rest1 with
        | c2 :: rest2 =>
          match hexVal c2 with
          | some v2 =>
            some (if c1 = '-' then (65536 - v2) % 65536 else v2, rest2)
          | none => none
        | [] => none
      else none

/-- The three consecutive `%2hx` conversions of
`sscanf(data, "#%2hx%2hx%2hx", ...)`; `none` when fewer than three
conversions succeed (the `== 3` check of the source fails). -/
def scan_hx2_3 (s : List Char) : Option (Nat × Nat × Nat) :=
  match scan_hx2 s with
  | none => none
  | some (r, s1) =>
    match scan_hx2 s1 with
    | none => none
    | some (g, s2) =>
      match scan_hx2 s2 with
      | none => none
      | some (b, _) => some (r, g, b)

/-- `rgb_color::from_str`: a leading `#` selects hex parsing, switching on
the total length (4 for `#RGB` with each nibble duplicated via
`rc |= rc << 4`, 7 for `#RRGGBB`, anything else an error); otherwise the
input is looked up as a case-sensitive palette name.  The length-7 branch
models `sscanf`'s `%2hx` conversions faithfully (whitespace skipping,
signs, variable-width items) via `scan_hx2_3`; in the length-4 branch the
`%1hx` fields are one character wide, leaving no room for signs or
skipped whitespace within the three available characters, so they are
written directly as single hex digits.  The palette name table is
external data, passed here as a list of name/color pairs. -/
def from_str (palette : List (String × rgb_color)) (color : List Char) :
    Except String rgb_color :=
  if color.head? = some '#' then
    if color.length = 4 then
      match hexVal (color.getD 1 '#'), hexVal (color.getD 2 '#'),
          hexVal (color.getD 3 '#') with
      | some r, some g, some b =>
        .ok ⟨r ||| (r <<< 4), g ||| (g <<< 4), b ||| (b <<< 4)⟩
      | _, _, _ => .error ("Could not parse color: " ++ String.mk color)
    else if color.length = 7 then
      match scan_hx2_3 (color.drop 1) with
      | some (r, g, b) => .ok ⟨r, g, b⟩
      | none => .error ("Could not parse color: " ++ String.mk color)
    else
      .error ("Could not parse color: " ++ String.mk color)
  else
    match palette.find? (fun p => p.1 == String.mk color) with
    | some p => .ok p.2
    | none =>
      .error ("Unknown color: " ++ String.mk color ++
        ".  See https://jonasjacek.github.io/colors/ for a list of supported color names")

/-- `line_range`: half-open interval over byte offsets; `lr_end = -1` is
the open-ended sentinel. -/
structure line_range where
  lr_start : Int
  lr_end : Int
deriving DecidableEq, Repr

/-- Modelled from the spec: `line_range::length`, the length of the
half-open interval (used with an explicit, non-sentinel end). -/
def line_range.lr_length (lr : line_range) : Int :=
  lr.lr_end - lr.lr_start

/-- Modelled from the spec: `line_range::shift(start, amount)` (declared
in a header outside the sources) — an endpoint at or after `start` moves
by `amount`; the `-1` sentinel end never moves. -/
def line_range.shift (lr : line_range) (start amount : Int) : line_range :=
  ⟨if start ≤ lr.lr_start then lr.lr_start + amount else lr.lr_start,
   if lr.lr_end ≠ -1 ∧ start ≤ lr.lr_end then lr.lr_end + amount
   else lr.lr_end⟩

/-- Modelled from the spec: `line_range::intersects` (declared in a header
outside the sources) — the two half-open intervals overlap, an `-1` end
read as extending without bound. -/
def line_range.intersects (a b : line_range) : Bool :=
  (a.lr_end == -1 || max a.lr_start b.lr_start < a.lr_end) &&
  (b.lr_end == -1 || max a.lr_start b.lr_start < b.lr_end)

/-- Modelled from the spec: `line_range::intersection` (declared in a
header outside the sources) — starts take the max; an `-1` end defers to
the other range's end, otherwise ends take the min. -/
def line_range.intersection (a b : line_range) : line_range :=
  ⟨max a.lr_start b.lr_start,
   if a.lr_end = -1 then b.lr_end
   else if b.lr_end = -1 then a.lr_end
   else min a.lr_end b.lr_end⟩

/-- `string_attr`: a typed, valued attribute over a byte range.  The
attribute type is modelled as a numeric tag and the value as an `Int`. -/
structure string_attr where
  sa_range : line_range
  sa_type : Nat
  sa_value : Int
deriving DecidableEq, Repr

/-- Modelled from the spec: `shift_string_attrs(sa, start, amount)`
(declared in a header outside the sources) — shifts every attribute's
range via `line_range::shift`. -/
def shift_string_attrs (attrs : List string_attr) (start amount : Int) :
    List string_attr :=
  attrs.map fun sa => { sa with sa_range := sa.sa_range.shift start amount }

/-- `attr_line_t`: a string plus its attribute list. -/
structure attr_line_t where
  al_string : List Char
  al_attrs : List string_attr
deriving DecidableEq, Repr

/-- `attr_line_t::insert(index, al, tws)` with `tws == nullptr` (no
word-wrap pass): existing attributes are shifted only when
`index < al_string.length()`; the string is spliced; each of `al`'s
attributes is appended shifted by `index`, an open-ended end resolved to
`index + al.length()`. -/
def attr_line_t.insert (self : attr_line_t) (index : Nat)
    (al : attr_line_t) : attr_line_t :=
  let attrs1 :=
    if index < self.al_string.length then
      shift_string_attrs self.al_attrs index al.al_string.length
    else self.al_attrs
  let str1 := self.al_string.take index ++ al.al_string
      ++ self.al_string.drop index
  let newAttrs := al.al_attrs.map fun sa =>
    let lr := sa.sa_range.shift 0 index
    let lr : line_range :=
      if lr.lr_end = -1 then
        { lr with lr_end := (index : Int) + al.al_string.length }
      else lr
    { sa with sa_range := lr }
  { al_string := str1, al_attrs := attrs1 ++ newAttrs }

/-- The character class accepted by the word-scan loop of the word-wrap
pass of `attr_line_t::insert`: alphanumeric or one of `, _ . ;`. -/
def tolerated (c : Char) : Bool :=
  c.isAlphanum || c = ',' || c = '_' || c = '.' || c = ';'

/-- Body of the word-scan loop of the word-wrap pass, recursing over the
remaining characters: while the current character satisfies `tolerated`,
advance; inside the body, a `-` or `.` advances one further and breaks. -/
def find_word_end_aux : List Char → Nat → Nat
  | [], lpc => lpc
  | c :: rest, lpc =>
    if tolerated c then
      if c = '-' ∨ c = '.' then lpc + 1
      else find_word_end_aux rest (lpc + 1)
    else lpc

/-- The word-scan loop of the word-wrap pass of `attr_line_t::insert`
(the `for` loop headed "Find the end of a word or a breakpoint."),
started at position `start`. -/
def find_word_end (s : List Char) (start : Nat) : Nat :=
  find_word_end_aux (s.drop start) start

/-- `attr_line_t::subline(start, len)`: extracts the substring and every
attribute intersecting the window, with ranges intersected against the
window and shifted left by `start`. -/
def attr_line_t.subline (self : attr_line_t) (start len : Nat) :
    attr_line_t :=
  let lr : line_range := ⟨(start : Int), (start : Int) + (len : Int)⟩
  { al_string := (self.al_string.drop start).take len,
    al_attrs := self.al_attrs.filterMap fun sa =>
      if lr.intersects sa.sa_range then
        some { sa with
               sa_range := (lr.intersection sa.sa_range).shift
                 lr.lr_start (-lr.lr_start) }
      else none }

/-- Position of the first `'\n'` at or after `pos` (the
`al_string.find('\n', pos)` call of `attr_line_t::split_lines`). -/
def findNlAux : List Char → Nat → Option Nat
  | [], _ => none
  | c :: rest, i => if c = '\n' then some i else findNlAux rest (i + 1)

/-- `al_string.find('\n', pos)` of `attr_line_t::split_lines`. -/
def findNl (s : List Char) (pos : Nat) : Option Nat :=
  findNlAux (s.drop pos) pos

/-- The loop of `attr_line_t::split_lines`: repeatedly finds the next
`'\n'` and appends `subline(pos, next_line - pos)` to the caller-supplied
vector, finishing with `subline(pos)` (to end of string).  The vector is
only appended to, never cleared. -/
def split_lines_from (L : attr_line_t) (pos : Nat)
    (lines : List attr_line_t) : List attr_line_t :=
  match h : findNl L.al_string pos with
  | some next_line =>
    split_lines_from L (next_line + 1)
      (lines ++ [L.subline pos (next_line - pos)])
  | none => lines ++ [L.subline pos (L.al_string.length - pos)]
termination_by L.al_string.length - pos
decreasing_by
  have aux : ∀ (l : List Char) (i n : Nat),
      findNlAux l i = some n → i ≤ n ∧ n < i + l.length := by
    intro l
    induction l with
    | nil => intro i n h2; simp [findNlAux] at h2
    | cons c rest ih =>
      intro i n h2
      by_cases hc : c = '\n'
      · simp [findNlAux, hc] at h2
        simp only [List.length_cons]
        omega
      · simp only [findNlAux, hc, if_false, if_neg] at h2
        have h3 := ih (i + 1) n h2
        simp only [List.length_cons]
        omega
  have h2 := aux (L.al_string.drop pos) pos next_line (by simpa [findNl] using h)
  have h3 : (L.al_string.drop pos).length = L.al_string.length - pos :=
    List.length_drop pos L.al_string
  omega

/-- `attr_line_t::split_lines(lines)`: appends the lines of `self` to the
caller-supplied vector. -/
def attr_line_t.split_lines (self : attr_line_t)
    (lines : List attr_line_t) : List attr_line_t :=
  split_lines_from self 0 lines

/-- Tag of the `VC_STYLE` attribute type. -/
def VC_STYLE : Nat := 0

/-- Tag of the `VC_GRAPHIC` attribute type. -/
def VC_GRAPHIC : Nat := 1

/-- Tag of the `VC_FOREGROUND` attribute type. -/
def VC_FOREGROUND : Nat := 2

/-- Tag of the `VC_BACKGROUND` attribute type. -/
def VC_BACKGROUND : Nat := 3

/-- The attribute-kind filter of `view_curses::mvwattrline`: only
`VC_STYLE`, `VC_GRAPHIC`, `VC_FOREGROUND` and `VC_BACKGROUND` attributes
are processed, every other kind is skipped. -/
def recognized_type (t : Nat) : Bool :=
  t == VC_STYLE || t == VC_GRAPHIC || t == VC_FOREGROUND || t == VC_BACKGROUND

/-- `utf_to_display_adjustment`: a byte origin and the column delta the
expansion pass recorded there. -/
structure utf_to_display_adjustment where
  uda_origin : Int
  uda_offset : Int
deriving DecidableEq, Repr

/-- The adjustment summation of `view_curses::mvwattrline`: the offsets of
all adjustments whose origin lies strictly before `endpoint` are added
up. -/
def sum_adjustments (adjs : List utf_to_display_adjustment)
    (endpoint : Int) : Int :=
  (adjs.filter fun adj => adj.uda_origin < endpoint).foldl
    (fun acc adj => acc + adj.uda_offset) 0

/-- The attribute-range resolution step of `view_curses::mvwattrline`
(the body of the attribute loop up to the final clipped range): skips
unrecognized kinds; applies the recorded display adjustments to each
explicit endpoint (an `-1` end is left untouched); rebases the start onto
the visible window `lr`, clamping at `0`; replaces an `-1` end by
`lr.lr_start + line_width`; and clips the end to the window width. -/
def resolve_attr_range (adjs : List utf_to_display_adjustment)
    (sa_type : Nat) (sa_range lr : line_range) : Option line_range :=
  if recognized_type sa_type then
    let line_width := lr.lr_length
    let start1 := sa_range.lr_start + sum_adjustments adjs sa_range.lr_start
    let end1 :=
      if sa_range.lr_end ≠ -1 then
        sa_range.lr_end + sum_adjustments adjs sa_range.lr_end
      else sa_range.lr_end
    let start2 := max 0 (start1 - lr.lr_start)
    let end2 := if end1 = -1 then lr.lr_start + line_width else end1
    let end3 := min line_width (end2 - lr.lr_start)
    some ⟨start2, end3⟩
  else none

/-- Joining the strings of a list of lines with `'\n'` separators (the
spec's round-trip property `join(split_lines(L), "\n")`). -/
def join_with_nl : List attr_line_t → List Char
  | [] => []
  | [l] => l.al_string
  | l :: rest => l.al_string ++ '\n' :: join_with_nl rest

/-! ### Helper lemmas about the color distance -/

theorem clamp_sqrt_nonneg (t : ℝ) : 0 ≤ clamp_sqrt t := by
  unfold clamp_sqrt
  split
  · exact le_refl 0
  · exact Real.sqrt_nonneg t

theorem clamp_sqrt_zero : clamp_sqrt 0 = 0 := by
  simp [clamp_sqrt]

theorem clamp_sqrt_eq_zero {t : ℝ} (ht : 0 ≤ t) (h : clamp_sqrt t = 0) :
    t = 0 := by
  unfold clamp_sqrt at h
  rw [if_neg (not_lt.mpr ht)] at h
  exact (Real.sqrt_eq_zero ht).mp h

theorem clamp_sqrt_mul_self {t : ℝ} (ht : 0 ≤ t) :
    clamp_sqrt (t * t) = t := by
  unfold clamp_sqrt
  rw [if_neg (not_lt.mpr (mul_self_nonneg t))]
  exact Real.sqrt_mul_self ht

theorem chroma_nonneg (c : lab_color) : 0 ≤ chroma c :=
  Real.sqrt_nonneg _

theorem deltaE_nonneg (x y : lab_color) : 0 ≤ deltaE x y :=
  clamp_sqrt_nonneg _

theorem deltaE_self (x : lab_color) : deltaE x x = 0 := by
  simp [deltaE, deltaH, sub_self, clamp_sqrt_zero]

theorem deltaE_eq_zero_imp (x y : lab_color) (h : deltaE x y = 0) :
    x = y := by
  have hc : (0 : ℝ) ≤ chroma x := chroma_nonneg x
  have hsc : (0 : ℝ) < 1 + 0.045 * chroma x := by nlinarith
  have hsh : (0 : ℝ) < 1 + 0.015 * chroma x := by nlinarith
  have hI : (0 : ℝ) ≤
      ((x.lc_l - y.lc_l) / 1) * ((x.lc_l - y.lc_l) / 1)
      + ((chroma x - chroma y) / (1 + 0.045 * chroma x)) *
        ((chroma x - chroma y) / (1 + 0.045 * chroma x))
      + (deltaH x y / (1 + 0.015 * chroma x)) *
        (deltaH x y / (1 + 0.015 * chroma x)) :=
    add_nonneg (add_nonneg (mul_self_nonneg _) (mul_self_nonneg _))
      (mul_self_nonneg _)
  have h0 := clamp_sqrt_eq_zero hI h
  have e1 : ((x.lc_l - y.lc_l) / 1) * ((x.lc_l - y.lc_l) / 1) = 0 := by
    nlinarith [mul_self_nonneg ((chroma x - chroma y) / (1 + 0.045 * chroma x)),
      mul_self_nonneg (deltaH x y / (1 + 0.015 * chroma x)),
      mul_self_nonneg ((x.lc_l - y.lc_l) / 1)]
  have e2 : ((chroma x - chroma y) / (1 + 0.045 * chroma x)) *
      ((chroma x - chroma y) / (1 + 0.045 * chroma x)) = 0 := by
    nlinarith [mul_self_nonneg ((chroma x - chroma y) / (1 + 0.045 * chroma x)),
      mul_self_nonneg (deltaH x y / (1 + 0.015 * chroma x)),
      mul_self_nonneg ((x.lc_l - y.lc_l) / 1)]
  have e3 : (deltaH x y / (1 + 0.015 * chroma x)) *
      (deltaH x y / (1 + 0.015 * chroma x)) = 0 := by
    nlinarith [mul_self_nonneg ((chroma x - chroma y) / (1 + 0.045 * chroma x)),
      mul_self_nonneg (deltaH x y / (1 + 0.015 * chroma x)),
      mul_self_nonneg ((x.lc_l - y.lc_l) / 1)]
  have hL : x.lc_l = y.lc_l := by
    have := mul_self_eq_zero.mp e1
    rw [div_one] at this
    linarith [sub_eq_zero.mp this]
  have hC : chroma x - chroma y = 0 := by
    rcases div_eq_zero_iff.mp (mul_self_eq_zero.mp e2) with h' | h'
    · exact h'
    · exact absurd h' (ne_of_gt hsc)
  have hH : deltaH x y = 0 := by
    rcases div_eq_zero_iff.mp (mul_self_eq_zero.mp e3) with h' | h'
    · exact h'
    · exact absurd h' (ne_of_gt hsh)
  have hdh : (x.lc_a - y.lc_a) * (x.lc_a - y.lc_a)
      + (x.lc_b - y.lc_b) * (x.lc_b - y.lc_b)
      - (chroma x - chroma y) * (chroma x - chroma y) = 0 := by
    apply clamp_sqrt_eq_zero _ hH
    rw [hC]
    nlinarith [mul_self_nonneg (x.lc_a - y.lc_a), mul_self_nonneg (x.lc_b - y.lc_b)]
  have hA : x.lc_a = y.lc_a := by
    rw [hC] at hdh
    nlinarith [mul_self_nonneg (x.lc_a - y.lc_a), mul_self_nonneg (x.lc_b - y.lc_b)]
  have hB : x.lc_b = y.lc_b := by
    rw [hC] at hdh
    nlinarith [mul_self_nonneg (x.lc_a - y.lc_a), mul_self_nonneg (x.lc_b - y.lc_b)]
  cases x
  cases y
  simp only at hL hA hB
  simp [hL, hA, hB]

/-! ### C1: deltaE self-distance and symmetry -/

theorem chroma_unit : chroma ⟨0, 1, 0⟩ = 1 := by
  show Real.sqrt ((1 : ℝ) * 1 + 0 * 0) = 1
  norm_num [Real.sqrt_one]

theorem chroma_origin : chroma ⟨0, 0, 0⟩ = 0 := by
  show Real.sqrt ((0 : ℝ) * 0 + 0 * 0) = 0
  norm_num [Real.sqrt_zero]

theorem deltaE_unit_origin : deltaE ⟨0, 1, 0⟩ ⟨0, 0, 0⟩ = 200 / 209 := by
  have hH : deltaH ⟨0, 1, 0⟩ ⟨0, 0, 0⟩ = 0 := by
    simp only [deltaH, chroma_unit, chroma_origin]
    norm_num [clamp_sqrt_zero]
  simp only [deltaE, chroma_unit, chroma_origin, hH]
  have harg : (((0 : ℝ) - 0) / 1) * ((0 - 0) / 1)
      + ((1 - 0) / (1 + 0.045 * 1)) * ((1 - 0) / (1 + 0.045 * 1))
      + ((0 : ℝ) / (1 + 0.015 * 1)) * (0 / (1 + 0.015 * 1))
      = (200 / 209 : ℝ) * (200 / 209) := by norm_num
  rw [harg, clamp_sqrt_mul_self (by norm_num)]

theorem deltaE_origin_unit : deltaE ⟨0, 0, 0⟩ ⟨0, 1, 0⟩ = 1 := by
  have hH : deltaH ⟨0, 0, 0⟩ ⟨0, 1, 0⟩ = 0 := by
    simp only [deltaH, chroma_unit, chroma_origin]
    norm_num [clamp_sqrt_zero]
  simp only [deltaE, chroma_unit, chroma_origin, hH]
  have harg : (((0 : ℝ) - 0) / 1) * ((0 - 0) / 1)
      + ((0 - 1) / (1 + 0.045 * 0)) * ((0 - 1) / (1 + 0.045 * 0))
      + ((0 : ℝ) / (1 + 0.015 * 0)) * (0 / (1 + 0.015 * 0))
      = (1 : ℝ) * 1 := by norm_num
  rw [harg, clamp_sqrt_mul_self (by norm_num)]

/-- Claim C1, counterexample: `deltaE` is not symmetric.  At the Lab
colors `(0, 1, 0)` and `(0, 0, 0)` the two orders give `200/209` and `1`
respectively, because the scale factors `sc` and `sh` are computed from
the chroma of the first argument only. -/
theorem deltaE_not_symmetric :
    deltaE ⟨0, 1, 0⟩ ⟨0, 0, 0⟩ ≠ deltaE ⟨0, 0, 0⟩ ⟨0, 1, 0⟩ := by
  rw [deltaE_unit_origin, deltaE_origin_unit]
  norm_num

/-- Claim C1 (amended): `deltaE x x = 0` for every Lab color `x`, and
`deltaE a b = deltaE b a` whenever `a` and `b` have equal chroma; full
symmetry fails in general because the scale factors `sc` and `sh` use
only the first argument's chroma. -/
theorem deltaE_self_and_symm_of_chroma_eq :
    (∀ x : lab_color, deltaE x x = 0) ∧
    (∀ a b : lab_color, chroma a = chroma b → deltaE a b = deltaE b a) := by
  refine ⟨deltaE_self, fun a b hab => ?_⟩
  have hH : deltaH a b = deltaH b a := by
    simp only [deltaH]
    rw [hab]
    congr 1
    ring
  simp only [deltaE]
  rw [hab, hH]
  congr 1
  ring

/-- Witness for C1: the symmetry conclusion applied at two concrete equal
chroma Lab colors. -/
theorem deltaE_self_and_symm_of_chroma_eq_witness :
    deltaE ⟨1, 0, 0⟩ ⟨2, 0, 0⟩ = deltaE ⟨2, 0, 0⟩ ⟨1, 0, 0⟩ :=
  deltaE_self_and_symm_of_chroma_eq.2 ⟨1, 0, 0⟩ ⟨2, 0, 0⟩ (by
    show Real.sqrt ((0 : ℝ) * 0 + 0 * 0) = Real.sqrt ((0 : ℝ) * 0 + 0 * 0)
    rfl)

/-! ### C9: open-ended attribute ranges in the renderer -/

/-- Claim C9: in `view_curses::mvwattrline`, a recognized attribute whose
range end is the open-ended sentinel `-1` resolves to the end of the
visible display-column range: the clipped (window-relative) end equals
the full window width `lr.lr_end - lr.lr_start`, independently of the
line's string. -/
theorem resolve_attr_range_open_end (adjs : List utf_to_display_adjustment)
    (t : Nat) (sa_range lr : line_range)
    (h1 : recognized_type t = true) (h2 : sa_range.lr_end = -1) :
    resolve_attr_range adjs t sa_range lr =
      some ⟨max 0 (sa_range.lr_start + sum_adjustments adjs sa_range.lr_start
              - lr.lr_start),
            lr.lr_end - lr.lr_start⟩ := by
  simp only [resolve_attr_range, h1, h2, line_range.lr_length, if_true,
    ne_eq, not_true_eq_false, false_and, if_false, ite_true, ite_false]
  have h3 : lr.lr_start + (lr.lr_end - lr.lr_start) - lr.lr_start
      = lr.lr_end - lr.lr_start := by ring
  rw [h3, min_self]

/-- Witness for C9: a `VC_STYLE` attribute `[2, -1)` on the visible window
`[1, 5)` resolves to the window-relative range `[1, 4)` — up to the end of
the window. -/
theorem resolve_attr_range_open_end_witness :
    resolve_attr_range [] VC_STYLE ⟨2, -1⟩ ⟨1, 5⟩ =
      some ⟨max 0 (2 + sum_adjustments [] 2 - 1), 5 - 1⟩ :=
  resolve_attr_range_open_end [] VC_STYLE ⟨2, -1⟩ ⟨1, 5⟩ (by decide) (by decide)

/-! ### C7, C8: rgb_color::from_str -/

theorem hexVal_lt_16 (c : Char) (v : Nat) (h : hexVal c = some v) :
    v < 16 := by
  unfold hexVal at h
  split_ifs at h with h1 h2 h3 <;> simp at h <;> omega

theorem hexVal_not_space (c : Char) (v : Nat) (h : hexVal c = some v) :
    c_isspace c = false := by
  have hb : 48 ≤ c.toNat ∧ c.toNat ≤ 57 ∨ 97 ≤ c.toNat ∧ c.toNat ≤ 102 ∨
      65 ≤ c.toNat ∧ c.toNat ≤ 70 := by
    unfold hexVal at h
    split_ifs at h with h1 h2 h3
    · exact Or.inl h1
    · exact Or.inr (Or.inl h2)
    · exact Or.inr (Or.inr h3)
  simp only [c_isspace, Bool.or_eq_false_iff, Bool.and_eq_false_iff,
    decide_eq_false_iff_not]
  omega

theorem hexVal_ex : hexVal 'x' = none := by decide

theorem hexVal_EX : hexVal 'X' = none := by decide

theorem skip_ws_not_space (c : Char) (rest : List Char)
    (h : c_isspace c = false) : skip_ws (c :: rest) = c :: rest := by
  simp [skip_ws, h]

theorem scan_hx2_digits (c1 c2 : Char) (rest : List Char) (v1 v2 : Nat)
    (h1 : hexVal c1 = some v1) (h2 : hexVal c2 = some v2) :
    scan_hx2 (c1 :: c2 :: rest) = some (16 * v1 + v2, rest) := by
  have hs1 : c_isspace c1 = false := hexVal_not_space c1 v1 h1
  have hx : ¬ (c2 = 'x' ∨ c2 = 'X') := by
    rintro (h' | h') <;> subst h'
    · rw [hexVal_ex] at h2
      cases h2
    · rw [hexVal_EX] at h2
      cases h2
  unfold scan_hx2
  rw [skip_ws_not_space c1 (c2 :: rest) hs1]
  simp only [h1]
  by_cases h0 : c1 = '0'
  · rw [if_pos h0, if_neg hx]
    simp [h2]
  · rw [if_neg h0]
    simp [h2]

theorem scan_hx2_3_digits (d1 d2 d3 d4 d5 d6 : Char)
    (v1 v2 v3 v4 v5 v6 : Nat)
    (h1 : hexVal d1 = some v1) (h2 : hexVal d2 = some v2)
    (h3 : hexVal d3 = some v3) (h4 : hexVal d4 = some v4)
    (h5 : hexVal d5 = some v5) (h6 : hexVal d6 = some v6) :
    scan_hx2_3 [d1, d2, d3, d4, d5, d6]
      = some (16 * v1 + v2, 16 * v3 + v4, 16 * v5 + v6) := by
  unfold scan_hx2_3
  simp only [scan_hx2_digits d1 d2 [d3, d4, d5, d6] v1 v2 h1 h2,
    scan_hx2_digits d3 d4 [d5, d6] v3 v4 h3 h4,
    scan_hx2_digits d5 d6 [] v5 v6 h5 h6]

theorem lor_shift_eq_seventeen : ∀ r : Nat, r < 16 → r ||| (r <<< 4) = 17 * r := by
  decide

theorem from_str_four (pal : List (String × rgb_color)) (a b c : Char) :
    from_str pal ['#', a, b, c] =
      (match hexVal a, hexVal b, hexVal c with
       | some r, some g, some b' =>
         .ok ⟨r ||| (r <<< 4), g ||| (g <<< 4), b' ||| (b' <<< 4)⟩
       | _, _, _ =>
         .error ("Could not parse color: " ++ String.mk ['#', a, b, c])) :=
  rfl

theorem from_str_seven (pal : List (String × rgb_color))
    (a b c d e f : Char) :
    from_str pal ['#', a, b, c, d, e, f] =
      (match scan_hx2_3 [a, b, c, d, e, f] with
       | some (r, g, b') => .ok ⟨r, g, b'⟩
       | none =>
         .error ("Could not parse color: "
           ++ String.mk ['#', a, b, c, d, e, f])) :=
  rfl

/-- Claim C7: `"#f00"` parses to `{255, 0, 0}` and `"#ff0000"` parses to
the same value; in general, a `#RGB` input with hex digits of values
`r`, `g`, `b` parses to the nibble-duplicated bytes (`rc |= rc << 4`),
which equals the parse of the corresponding `#RRGGBB` form. -/
theorem from_str_nibble_duplication (pal : List (String × rgb_color))
    (c1 c2 c3 : Char) (r g b : Nat)
    (h1 : hexVal c1 = some r) (h2 : hexVal c2 = some g)
    (h3 : hexVal c3 = some b) :
    from_str pal ['#', 'f', '0', '0'] = .ok ⟨255, 0, 0⟩ ∧
    from_str pal ['#', 'f', 'f', '0', '0', '0', '0'] = .ok ⟨255, 0, 0⟩ ∧
    from_str pal ['#', c1, c2, c3] =
      .ok ⟨r ||| (r <<< 4), g ||| (g <<< 4), b ||| (b <<< 4)⟩ ∧
    from_str pal ['#', c1, c1, c2, c2, c3, c3] =
      from_str pal ['#', c1, c2, c3] := by
  refine ⟨rfl, rfl, ?_, ?_⟩
  · simp [from_str, h1, h2, h3]
  · rw [from_str_seven,
      scan_hx2_3_digits c1 c1 c2 c2 c3 c3 r r g g b b h1 h1 h2 h2 h3 h3,
      from_str_four]
    simp only [h1, h2, h3]
    rw [lor_shift_eq_seventeen r (hexVal_lt_16 c1 r h1),
      lor_shift_eq_seventeen g (hexVal_lt_16 c2 g h2),
      lor_shift_eq_seventeen b (hexVal_lt_16 c3 b h3),
      show 16 * r + r = 17 * r from by omega,
      show 16 * g + g = 17 * g from by omega,
      show 16 * b + b = 17 * b from by omega]

/-- Witness for C7: the general nibble-duplication conclusion applied at
the digits of `"#f00"` against the empty name table. -/
theorem from_str_nibble_duplication_witness :
    from_str [] ['#', 'f', '0', '0'] = .ok ⟨255, 0, 0⟩ ∧
    from_str [] ['#', 'f', 'f', '0', '0', '0', '0'] = .ok ⟨255, 0, 0⟩ ∧
    from_str [] ['#', 'f', '0', '0'] =
      .ok ⟨15 ||| (15 <<< 4), 0 ||| (0 <<< 4), 0 ||| (0 <<< 4)⟩ ∧
    from_str [] ['#', 'f', 'f', '0', '0', '0', '0'] =
      from_str [] ['#', 'f', '0', '0'] :=
  from_str_nibble_duplication [] 'f' '0' '0' 15 0 0 (by decide) (by decide)
    (by decide)

theorem from_str_four_none (pal : List (String × rgb_color)) (a b c : Char)
    (h : hexVal a = none ∨ hexVal b = none ∨ hexVal c = none) :
    from_str pal ['#', a, b, c] =
      .error ("Could not parse color: " ++ String.mk ['#', a, b, c]) := by
  rw [from_str_four]
  rcases h with h | h | h
  · rcases h2 : hexVal b with _ | v2 <;> rcases h3 : hexVal c with _ | v3 <;>
      simp [h]
  · rcases h1 : hexVal a with _ | v1 <;> rcases h3 : hexVal c with _ | v3 <;>
      simp [h]
  · rcases h1 : hexVal a with _ | v1 <;> rcases h2 : hexVal b with _ | v2 <;>
      simp [h]

theorem from_str_seven_scan_none (pal : List (String × rgb_color))
    (a b c d e f : Char) (h : scan_hx2_3 [a, b, c, d, e, f] = none) :
    from_str pal ['#', a, b, c, d, e, f] =
      .error ("Could not parse color: "
        ++ String.mk ['#', a, b, c, d, e, f]) := by
  rw [from_str_seven, h]

theorem scan_hx2_none_of_bad_head (s : List Char)
    (h : ∀ c cs, skip_ws s = c :: cs →
      hexVal c = none ∧ c ≠ '+' ∧ c ≠ '-') :
    scan_hx2 s = none := by
  unfold scan_hx2
  cases hsw : skip_ws s with
  | nil => rfl
  | cons c0 cs0 =>
    obtain ⟨hx, hp, hm⟩ := h c0 cs0 hsw
    simp only [hx]
    have hne : ¬ (c0 = '+' ∨ c0 = '-') := by
      rintro (h' | h')
      · exact hp h'
      · exact hm h'
    rw [if_neg hne]

theorem scan_hx2_3_none_of_first (s : List Char) (h : scan_hx2 s = none) :
    scan_hx2_3 s = none := by
  unfold scan_hx2_3
  rw [h]

/-- Claim C8, counterexample: the source's `sscanf` conversions skip
whitespace inside `#RRGGBB` input, so `"#12 345"` — which contains the
non-hex character `' '` — parses *successfully* to `(0x12, 0x34, 0x05)`
rather than producing the "Could not parse color" error the claim
asserts for inputs containing unparseable hex digits. -/
theorem from_str_sscanf_whitespace_cx :
    from_str [] ['#', '1', '2', ' ', '3', '4', '5'] = .ok ⟨18, 52, 5⟩ ∧
    ¬ (from_str [] ['#', '1', '2', ' ', '3', '4', '5'] =
        .error ("Could not parse color: "
          ++ String.mk ['#', '1', '2', ' ', '3', '4', '5'])) := by
  constructor
  · rfl
  · intro hcontra
    rw [show from_str [] ['#', '1', '2', ' ', '3', '4', '5']
        = Except.ok (⟨18, 52, 5⟩ : rgb_color) from rfl] at hcontra
    exact Except.noConfusion hcontra

/-- Claim C8 (amended): parse failures are error values naming the
offending text, never fatal.  A `#`-prefixed string of length other than
4 or 7 yields the "Could not parse color" error carrying the input; so
does a length-4 input with a non-hex digit in one of its three digit
positions, and a length-7 input on which the first `%2hx` conversion has
a matching failure — its first non-whitespace payload character is
missing or is neither a sign nor a hex digit.  (A non-hex character is
not by itself an error in the length-7 form: `sscanf`'s conversions skip
whitespace and accept signs and shorter-than-2-digit items, as the
counterexample shows.)  A non-`#` string matching no palette name yields
the "Unknown color" error carrying the input. -/
theorem from_str_error_cases (pal : List (String × rgb_color))
    (s : List Char) :
    (s.head? = some '#' → s.length ≠ 4 → s.length ≠ 7 →
      from_str pal s = .error ("Could not parse color: " ++ String.mk s)) ∧
    (s.head? = some '#' → s.length = 4 →
      (∃ k, 1 ≤ k ∧ k ≤ 3 ∧ hexVal (s.getD k '#') = none) →
      from_str pal s = .error ("Could not parse color: " ++ String.mk s)) ∧
    (s.head? = some '#' → s.length = 7 →
      (∀ c cs, skip_ws (s.drop 1) = c :: cs →
        hexVal c = none ∧ c ≠ '+' ∧ c ≠ '-') →
      from_str pal s = .error ("Could not parse color: " ++ String.mk s)) ∧
    (s.head? ≠ some '#' → (∀ p ∈ pal, p.1 ≠ String.mk s) →
      from_str pal s = .error ("Unknown color: " ++ String.mk s ++
        ".  See https://jonasjacek.github.io/colors/ for a list of supported color names")) := by
  refine ⟨?_, ?_, ?_, ?_⟩
  · intro hh h4 h7
    simp [from_str, hh, h4, h7]
  · intro hh h4 hk
    rcases s with _ | ⟨c0, t⟩
    · simp at hh
    rcases t with _ | ⟨a, t⟩
    · simp at h4
    rcases t with _ | ⟨b, t⟩
    · simp at h4
    rcases t with _ | ⟨c, t⟩
    · simp at h4
    rcases t with _ | ⟨d, t⟩
    · simp only [List.head?_cons, Option.some.injEq] at hh
      subst hh
      obtain ⟨k, hk1, hk2, hk3⟩ := hk
      apply from_str_four_none
      interval_cases k
      · exact Or.inl (by simpa using hk3)
      · exact Or.inr (Or.inl (by simpa using hk3))
      · exact Or.inr (Or.inr (by simpa using hk3))
    · simp at h4
  · intro hh h7 hbad
    rcases s with _ | ⟨c0, t⟩
    · simp at hh
    rcases t with _ | ⟨a, t⟩
    · simp at h7
    rcases t with _ | ⟨b, t⟩
    · simp at h7
    rcases t with _ | ⟨c, t⟩
    · simp at h7
    rcases t with _ | ⟨d, t⟩
    · simp at h7
    rcases t with _ | ⟨e, t⟩
    · simp at h7
    rcases t with _ | ⟨f, t⟩
    · simp at h7
    rcases t with _ | ⟨x, t⟩
    · simp only [List.head?_cons, Option.some.injEq] at hh
      subst hh
      apply from_str_seven_scan_none
      apply scan_hx2_3_none_of_first
      apply scan_hx2_none_of_bad_head
      intro c1 cs1 hsw
      exact hbad c1 cs1 hsw
    · simp at h7
  · intro hh hn
    have hfind : pal.find? (fun p => p.1 == String.mk s) = none := by
      rw [List.find?_eq_none]
      intro p hp
      simpa using hn p hp
    simp [from_str, hh, hfind]

/-- Witness for C8: the four error cases at concrete inputs — a length-2
hex string, a length-4 hex string containing `'g'`, a length-7 hex string
starting with `'z'` (a matching failure for the first conversion), and an
unknown name against the empty palette. -/
theorem from_str_error_cases_witness :
    from_str [] ['#', 'a'] =
      .error ("Could not parse color: " ++ String.mk ['#', 'a']) ∧
    from_str [] ['#', 'g', '0', '0'] =
      .error ("Could not parse color: " ++ String.mk ['#', 'g', '0', '0']) ∧
    from_str [] ['#', 'z', '0', '0', '0', '0', '0'] =
      .error ("Could not parse color: "
        ++ String.mk ['#', 'z', '0', '0', '0', '0', '0']) ∧
    from_str [] ['r', 'e', 'd'] =
      .error ("Unknown color: " ++ String.mk ['r', 'e', 'd'] ++
        ".  See https://jonasjacek.github.io/colors/ for a list of supported color names") :=
  ⟨(from_str_error_cases [] ['#', 'a']).1 (by decide) (by decide) (by decide),
   (from_str_error_cases [] ['#', 'g', '0', '0']).2.1 (by decide) (by decide)
     ⟨1, by decide, by decide, by decide⟩,
   (from_str_error_cases [] ['#', 'z', '0', '0', '0', '0', '0']).2.2.1
     (by decide) (by decide)
     (by
       intro c cs h
       rw [show skip_ws (['#', 'z', '0', '0', '0', '0', '0'].drop 1)
           = 'z' :: ['0', '0', '0', '0', '0'] from rfl] at h
       injection h with hc hcs
       subst hc
       exact ⟨by decide, by decide, by decide⟩),
   (from_str_error_cases [] ['r', 'e', 'd']).2.2.2 (by decide)
     (by intro p hp; simp at hp)⟩

/-! ### C2: attr_line_t::insert length and attribute shifting -/

/-- Claim C2, counterexample: inserting at `index == length(L)` (an
append) leaves pre-existing attributes unshifted, because the shifting
call is guarded by `index < al_string.length()`.  Here `L = "ab"` with an
attribute at `[2, 2)` and a two-character fragment inserted at `i = 2`:
the attribute's start stays `2` rather than moving to `2 + 2`. -/
theorem insert_append_no_shift_cx :
    (attr_line_t.insert ⟨['a', 'b'], [⟨⟨2, 2⟩, 0, 0⟩]⟩ 2
        ⟨['x', 'y'], []⟩).al_attrs[0]? = some ⟨⟨2, 2⟩, 0, 0⟩ ∧
    ¬ ((attr_line_t.insert ⟨['a', 'b'], [⟨⟨2, 2⟩, 0, 0⟩]⟩ 2
        ⟨['x', 'y'], []⟩).al_attrs[0]? = some ⟨⟨4, 4⟩, 0, 0⟩) := by
  constructor
  · rfl
  · decide

/-- Claim C2 (amended): for `0 ≤ i ≤ length(L)` the inserted line's length
is the sum of both lengths; and when `i < length(L)` every pre-existing
attribute whose (well-formed) range starts at or after `i` has both
endpoints shifted right by exactly `length(other)` (an open-ended `-1`
end staying open-ended).  When `i = length(L)` no attribute shifting
occurs. -/
theorem insert_length_and_shift (L : attr_line_t) (i : Nat)
    (other : attr_line_t) (hi : i ≤ L.al_string.length) :
    ((L.insert i other).al_string.length
      = L.al_string.length + other.al_string.length) ∧
    (i < L.al_string.length →
      ∀ k : Nat, ∀ sa : string_attr, L.al_attrs[k]? = some sa →
        (i : Int) ≤ sa.sa_range.lr_start →
        (sa.sa_range.lr_end = -1 ∨ sa.sa_range.lr_start ≤ sa.sa_range.lr_end) →
        (L.insert i other).al_attrs[k]? = some
          { sa with sa_range :=
              ⟨sa.sa_range.lr_start + other.al_string.length,
               if sa.sa_range.lr_end = -1 then -1
               else sa.sa_range.lr_end + other.al_string.length⟩ }) := by
  constructor
  · simp only [attr_line_t.insert, List.length_append, List.length_take,
      List.length_drop]
    omega
  · intro hlt k sa hk hge hwf
    have hklen : k < L.al_attrs.length := by
      rcases List.getElem?_eq_some_iff.mp hk with ⟨hlen, _⟩
      exact hlen
    simp only [attr_line_t.insert, if_pos hlt]
    rw [List.getElem?_append_left (by simpa [shift_string_attrs] using hklen)]
    simp only [shift_string_attrs, List.getElem?_map, hk, Option.map_some']
    have hstart : (0 : Int) ≤ sa.sa_range.lr_start := le_trans (by omega) hge
    have hrange : sa.sa_range.shift i other.al_string.length =
        ⟨sa.sa_range.lr_start + other.al_string.length,
         if sa.sa_range.lr_end = -1 then -1
         else sa.sa_range.lr_end + other.al_string.length⟩ := by
      unfold line_range.shift
      rcases hwf with hwf | hwf
      · simp only [hwf]
        norm_num [hge]
      · have hend : (i : Int) ≤ sa.sa_range.lr_end := le_trans hge hwf
        have hne : sa.sa_range.lr_end ≠ -1 := by omega
        simp only [if_pos hge, if_pos (And.intro hne hend), hne, if_neg,
          if_false]
    rw [hrange]

/-- Witness for C2: inserting `"z"` at index 1 of `"ab"` carrying an
attribute `[1, 2)`; the attribute shifts to `[2, 3)` and the length is
3. -/
theorem insert_length_and_shift_witness :
    ((⟨['a', 'b'], [⟨⟨1, 2⟩, 0, 0⟩]⟩ : attr_line_t).insert 1
        ⟨['z'], []⟩).al_string.length = 2 + 1 ∧
    ((⟨['a', 'b'], [⟨⟨1, 2⟩, 0, 0⟩]⟩ : attr_line_t).insert 1
        ⟨['z'], []⟩).al_attrs[0]? = some ⟨⟨2, 3⟩, 0, 0⟩ := by
  have h := insert_length_and_shift ⟨['a', 'b'], [⟨⟨1, 2⟩, 0, 0⟩]⟩ 1
    ⟨['z'], []⟩ (by decide)
  refine ⟨h.1, ?_⟩
  have h2 := h.2 (by decide) 0 ⟨⟨1, 2⟩, 0, 0⟩ (by rfl) (by decide)
    (Or.inr (by decide))
  simpa using h2

/-! ### C3: the word-wrap unit scanner -/

theorem tolerated_dash_false : tolerated '-' = false := by decide

theorem find_word_end_aux_spec :
    ∀ (l : List Char) (n : Nat),
      n ≤ find_word_end_aux l n ∧
      find_word_end_aux l n ≤ n + l.length ∧
      ((∃ m, m < l.length ∧ find_word_end_aux l n = n + m + 1 ∧
          l.getD m ' ' = '.' ∧
          ∀ k, k < m → tolerated (l.getD k ' ') = true ∧ l.getD k ' ' ≠ '.') ∨
       ((∀ k, k < find_word_end_aux l n - n →
            tolerated (l.getD k ' ') = true ∧ l.getD k ' ' ≠ '.') ∧
        (find_word_end_aux l n = n + l.length ∨
          tolerated (l.getD (find_word_end_aux l n - n) ' ') = false))) := by
  intro l
  induction l with
  | nil =>
    intro n
    refine ⟨le_refl n, by simp [find_word_end_aux], Or.inr ⟨?_, Or.inl ?_⟩⟩
    · intro k hk
      simp [find_word_end_aux] at hk
    · simp [find_word_end_aux]
  | cons c rest ih =>
    intro n
    by_cases ht : tolerated c = true
    · by_cases hd : c = '-' ∨ c = '.'
      · have hcdot : c = '.' := by
          rcases hd with hd | hd
          · rw [hd] at ht
            exact absurd ht (by rw [tolerated_dash_false]; simp)
          · exact hd
        have heq : find_word_end_aux (c :: rest) n = n + 1 := by
          simp [find_word_end_aux, ht, hd]
        refine ⟨by omega, by simp [heq, List.length_cons],
          Or.inl ⟨0, by simp [List.length_cons], by simpa using heq,
            by simpa using hcdot, ?_⟩⟩
        intro k hk
        omega
      · have hcnd : ¬ (c = '-' ∨ c = '.') := hd
        have heq : find_word_end_aux (c :: rest) n
            = find_word_end_aux rest (n + 1) := by
          simp [find_word_end_aux, ht, hcnd]
        obtain ⟨ihb1, ihb2, ihd⟩ := ih (n + 1)
        have hcne : c ≠ '.' := fun hc => hcnd (Or.inr hc)
        refine ⟨by omega, by simp [heq, List.length_cons]; omega, ?_⟩
        rcases ihd with ⟨m, hm, hmeq, hmdot, hmall⟩ | ⟨hall, halt⟩
        · refine Or.inl ⟨m + 1, by simp [List.length_cons]; omega, ?_, ?_, ?_⟩
          · rw [heq, hmeq]
            omega
          · simpa using hmdot
          · intro k hk
            rcases k with _ | k'
            · simpa using ⟨ht, hcne⟩
            · simpa using hmall k' (by omega)
        · refine Or.inr ⟨?_, ?_⟩
          · intro k hk
            rw [heq] at hk
            rcases k with _ | k'
            · simpa using ⟨ht, hcne⟩
            · have hk' : k' < find_word_end_aux rest (n + 1) - (n + 1) := by
                omega
              simpa using hall k' hk'
          · rcases halt with halt | halt
            · refine Or.inl ?_
              rw [heq, halt]
              simp [List.length_cons]
              omega
            · refine Or.inr ?_
              rw [heq]
              have hge : n + 1 ≤ find_word_end_aux rest (n + 1) := ihb1
              have hidx : find_word_end_aux rest (n + 1) - n
                  = (find_word_end_aux rest (n + 1) - (n + 1)) + 1 := by
                omega
              rw [hidx]
              simpa using halt
    · have heq : find_word_end_aux (c :: rest) n = n := by
        simp [find_word_end_aux, ht]
      refine ⟨by omega, by simp [heq, List.length_cons],
        Or.inr ⟨?_, Or.inr ?_⟩⟩
      · intro k hk
        rw [heq] at hk
        omega
      · rw [heq]
        simpa using ht

/-- Claim C3, counterexample: scanning `"ab-x"` from position 0 stops at
position 2 (the `'-'`), not at position 3 (one past it): `'-'` is not in
the loop's accepted character class, so the "trailing `-` advances one
further" branch never runs on it. -/
theorem find_word_end_dash_cx :
    find_word_end ['a', 'b', '-', 'x'] 0 = 2 ∧
    ¬ (find_word_end ['a', 'b', '-', 'x'] 0 = 2 + 1) := by
  constructor
  · rfl
  · decide

/-- Claim C3 (amended): the unit scan started at `start` consumes
characters that are alphanumeric or one of `, _ . ;`, and stops either at
the first character outside that class (so immediately before a `'-'`,
which never extends the unit) or one character past the first `'.'`
encountered. -/
theorem find_word_end_spec (s : List Char) (start : Nat)
    (h : start ≤ s.length) :
    start ≤ find_word_end s start ∧
    find_word_end s start ≤ s.length ∧
    ((∃ j, start ≤ j ∧ j < s.length ∧ find_word_end s start = j + 1 ∧
        s.getD j ' ' = '.' ∧
        ∀ k, start ≤ k → k < j →
          tolerated (s.getD k ' ') = true ∧ s.getD k ' ' ≠ '.') ∨
     ((∀ k, start ≤ k → k < find_word_end s start →
          tolerated (s.getD k ' ') = true ∧ s.getD k ' ' ≠ '.') ∧
      (find_word_end s start = s.length ∨
        tolerated (s.getD (find_word_end s start) ' ') = false))) := by
  have hgd : ∀ (m : Nat) (d : Char),
      (s.drop start).getD m d = s.getD (start + m) d := by
    intro m d
    simp [List.getD_eq_getElem?_getD, List.getElem?_drop]
  have hdl : (s.drop start).length = s.length - start :=
    List.length_drop start s
  obtain ⟨hb1, hb2, hd⟩ := find_word_end_aux_spec (s.drop start) start
  have hfw : find_word_end s start = find_word_end_aux (s.drop start) start :=
    rfl
  rw [← hfw] at hb1 hb2 hd
  refine ⟨hb1, by omega, ?_⟩
  rcases hd with ⟨m, hm, hmeq, hmdot, hmall⟩ | ⟨hall, halt⟩
  · refine Or.inl ⟨start + m, by omega, by omega, by omega, ?_, ?_⟩
    · rw [← hgd]
      exact hmdot
    · intro k hk1 hk2
      have hsub : start + (k - start) = k := by omega
      have := hmall (k - start) (by omega)
      rw [hgd, hsub] at this
      exact this
  · refine Or.inr ⟨?_, ?_⟩
    · intro k hk1 hk2
      have hsub : start + (k - start) = k := by omega
      have := hall (k - start) (by omega)
      rw [hgd, hsub] at this
      exact this
    · rcases halt with halt | halt
      · exact Or.inl (by omega)
      · refine Or.inr ?_
        have hsub : start + (find_word_end s start - start)
            = find_word_end s start := by omega
        rw [hgd, hsub] at halt
        exact halt

/-- Witness for C3: the characterization applied to `"a.b"` scanned from
0; the unit ends at position 2, one past the first `'.'`. -/
theorem find_word_end_spec_witness :
    0 ≤ find_word_end ['a', '.', 'b'] 0 ∧
    find_word_end ['a', '.', 'b'] 0 ≤ (['a', '.', 'b'] : List Char).length ∧
    ((∃ j, 0 ≤ j ∧ j < (['a', '.', 'b'] : List Char).length ∧
        find_word_end ['a', '.', 'b'] 0 = j + 1 ∧
        (['a', '.', 'b'] : List Char).getD j ' ' = '.' ∧
        ∀ k, 0 ≤ k → k < j →
          tolerated ((['a', '.', 'b'] : List Char).getD k ' ') = true ∧
          (['a', '.', 'b'] : List Char).getD k ' ' ≠ '.') ∨
     ((∀ k, 0 ≤ k → k < find_word_end ['a', '.', 'b'] 0 →
          tolerated ((['a', '.', 'b'] : List Char).getD k ' ') = true ∧
          (['a', '.', 'b'] : List Char).getD k ' ' ≠ '.') ∧
      (find_word_end ['a', '.', 'b'] 0 = (['a', '.', 'b'] : List Char).length ∨
        tolerated ((['a', '.', 'b'] : List Char).getD
          (find_word_end ['a', '.', 'b'] 0) ' ') = false))) :=
  find_word_end_spec ['a', '.', 'b'] 0 (by decide)

/-! ### C4: subline over the full range -/

theorem filterMap_eq_self_of (f : string_attr → Option string_attr) :
    ∀ l : List string_attr, (∀ a ∈ l, f a = some a) → l.filterMap f = l := by
  intro l
  induction l with
  | nil => intro h; rfl
  | cons a t ih =>
    intro h
    rw [List.filterMap_cons, h a (by simp)]
    rw [ih fun b hb => h b (by simp [hb])]

theorem window_keeps_proper (n : Int) (sa : string_attr)
    (hn : 0 ≤ n)
    (h0 : 0 ≤ sa.sa_range.lr_start)
    (h1 : sa.sa_range.lr_start < sa.sa_range.lr_end)
    (h2 : sa.sa_range.lr_end ≤ n) :
    (line_range.intersects ⟨0, n⟩ sa.sa_range = true) ∧
    (line_range.intersection ⟨0, n⟩ sa.sa_range).shift 0 (-0)
      = sa.sa_range := by
  have hne : sa.sa_range.lr_end ≠ -1 := by omega
  have hnne : n ≠ -1 := by omega
  constructor
  · simp only [line_range.intersects, Bool.and_eq_true, Bool.or_eq_true,
      beq_iff_eq, decide_eq_true_eq]
    constructor
    · right
      simp only [max_eq_right h0]
      omega
    · right
      simp only [max_eq_right h0]
      omega
  · simp only [line_range.intersection, line_range.shift, hnne, hne,
      if_false, if_neg, max_eq_right h0, neg_zero, add_zero, ne_eq,
      not_false_eq_true, true_and]
    have hmin : min n sa.sa_range.lr_end = sa.sa_range.lr_end :=
      min_eq_right h2
    simp only [hnne, if_neg, hne, hmin]
    simp only [if_pos h0, add_zero]
    have hend : (0 : Int) ≤ sa.sa_range.lr_end := by omega
    simp [hne, hend]

/-- Claim C4, counterexample: `subline(0, length(L))` does not always
reproduce the attribute set.  On `L = "ab"` with an open-ended attribute
`[0, -1)` and an empty attribute `[1, 1)`, the extraction resolves the
open end to `2` and drops the empty range. -/
theorem subline_full_cx :
    (attr_line_t.subline ⟨['a', 'b'], [⟨⟨0, -1⟩, 0, 0⟩, ⟨⟨1, 1⟩, 1, 0⟩]⟩
        0 2).al_attrs = [⟨⟨0, 2⟩, 0, 0⟩] ∧
    (attr_line_t.subline ⟨['a', 'b'], [⟨⟨0, -1⟩, 0, 0⟩, ⟨⟨1, 1⟩, 1, 0⟩]⟩
        0 2).al_attrs ≠ [⟨⟨0, -1⟩, 0, 0⟩, ⟨⟨1, 1⟩, 1, 0⟩] := by
  constructor
  · rfl
  · decide

/-- Claim C4 (amended): `subline(0, length(L))` always reproduces the
string; and when every attribute has an explicit (non-sentinel) end and a
nonempty in-bounds range (`0 ≤ start < end ≤ length`), the whole line —
attribute set included — is reproduced unchanged.  (An open-ended
`end == -1` attribute is instead copied with its end resolved to
`length(L)`, and an empty range is dropped, as the counterexample
shows.) -/
theorem subline_full_reproduces (L : attr_line_t) :
    (L.subline 0 L.al_string.length).al_string = L.al_string ∧
    ((∀ sa ∈ L.al_attrs, 0 ≤ sa.sa_range.lr_start ∧
        sa.sa_range.lr_start < sa.sa_range.lr_end ∧
        sa.sa_range.lr_end ≤ (L.al_string.length : Int)) →
      L.subline 0 L.al_string.length = L) := by
  have hstr : (L.subline 0 L.al_string.length).al_string = L.al_string := by
    simp [attr_line_t.subline]
  refine ⟨hstr, fun hall => ?_⟩
  have hn : (0 : Int) ≤ (L.al_string.length : Int) := by omega
  have hattrs : (L.subline 0 L.al_string.length).al_attrs = L.al_attrs := by
    simp only [attr_line_t.subline, Nat.cast_zero, zero_add]
    apply filterMap_eq_self_of
    intro sa hsa
    obtain ⟨h0, h1, h2⟩ := hall sa hsa
    obtain ⟨hint, hsh⟩ := window_keeps_proper (L.al_string.length) sa hn h0 h1 h2
    rw [if_pos hint]
    rw [show (-(0 : Int)) = -0 from rfl, hsh]
  have heta1 : L.subline 0 L.al_string.length =
      ⟨(L.subline 0 L.al_string.length).al_string,
       (L.subline 0 L.al_string.length).al_attrs⟩ := rfl
  have heta2 : L = ⟨L.al_string, L.al_attrs⟩ := rfl
  rw [heta1, hstr, hattrs, ← heta2]

/-- Witness for C4: the full-range extraction applied to `"ab"` with the
proper attribute `[0, 2)` reproduces the line exactly. -/
theorem subline_full_reproduces_witness :
    (attr_line_t.subline ⟨['a', 'b'], [⟨⟨0, 2⟩, 0, 0⟩]⟩ 0
        (⟨['a', 'b'], [⟨⟨0, 2⟩, 0, 0⟩]⟩ : attr_line_t).al_string.length)
      = ⟨['a', 'b'], [⟨⟨0, 2⟩, 0, 0⟩]⟩ :=
  (subline_full_reproduces ⟨['a', 'b'], [⟨⟨0, 2⟩, 0, 0⟩]⟩).2 (by
    intro sa hsa
    simp at hsa
    subst hsa
    refine ⟨by decide, by decide, by decide⟩)

/-! ### C5, C10: split_lines -/

theorem findNlAux_some_spec :
    ∀ (l : List Char) (i n : Nat), findNlAux l i = some n →
      i ≤ n ∧ n - i < l.length ∧ l.getD (n - i) ' ' = '\n' ∧
      ∀ k, k < n - i → l.getD k ' ' ≠ '\n' := by
  intro l
  induction l with
  | nil => intro i n h; simp [findNlAux] at h
  | cons c rest ih =>
    intro i n h
    by_cases hc : c = '\n'
    · simp [findNlAux, hc] at h
      subst h
      refine ⟨le_refl i, by simp, by simpa using hc, ?_⟩
      intro k hk
      omega
    · simp only [findNlAux, hc, if_false, if_neg] at h
      obtain ⟨ih1, ih2, ih3, ih4⟩ := ih (i + 1) n h
      have hni : n - i = (n - (i + 1)) + 1 := by omega
      refine ⟨by omega, by simp [List.length_cons]; omega, ?_, ?_⟩
      · rw [hni]
        simpa using ih3
      · intro k hk
        rcases k with _ | k'
        · simpa using hc
        · have : k' < n - (i + 1) := by omega
          simpa using ih4 k' this
  
theorem findNlAux_none_spec :
    ∀ (l : List Char) (i : Nat), findNlAux l i = none →
      ∀ k, k < l.length → l.getD k ' ' ≠ '\n' := by
  intro l
  induction l with
  | nil => intro i h k hk; simp at hk
  | cons c rest ih =>
    intro i h k hk
    by_cases hc : c = '\n'
    · simp [findNlAux, hc] at h
    · simp only [findNlAux, hc, if_false, if_neg] at h
      rcases k with _ | k'
      · simpa using hc
      · have hk' : k' < rest.length := by simpa using hk
        simpa using ih (i + 1) h k' hk'

theorem findNlAux_eq_none_of :
    ∀ (l : List Char) (i : Nat), (∀ c ∈ l, c ≠ '\n') → findNlAux l i = none := by
  intro l
  induction l with
  | nil => intro i h; rfl
  | cons c rest ih =>
    intro i h
    have hc : c ≠ '\n' := h c (by simp)
    simp only [findNlAux, hc, if_false, if_neg]
    exact ih (i + 1) fun b hb => h b (by simp [hb])

theorem findNl_some_spec (s : List Char) (pos nl : Nat)
    (h : findNl s pos = some nl) :
    pos ≤ nl ∧ nl < s.length ∧ s.getD nl ' ' = '\n' ∧
    ∀ k, pos ≤ k → k < nl → s.getD k ' ' ≠ '\n' := by
  have hgd : ∀ (m : Nat) (d : Char),
      (s.drop pos).getD m d = s.getD (pos + m) d := by
    intro m d
    simp [List.getD_eq_getElem?_getD, List.getElem?_drop]
  have hdl : (s.drop pos).length = s.length - pos := List.length_drop pos s
  obtain ⟨h1, h2, h3, h4⟩ := findNlAux_some_spec (s.drop pos) pos nl h
  have hsub : pos + (nl - pos) = nl := by omega
  refine ⟨h1, by omega, by rw [← hsub, ← hgd]; exact h3, ?_⟩
  intro k hk1 hk2
  have hsub2 : pos + (k - pos) = k := by omega
  have := h4 (k - pos) (by omega)
  rw [hgd, hsub2] at this
  exact this

theorem findNl_none_spec (s : List Char) (pos : Nat)
    (h : findNl s pos = none) :
    ∀ k, pos ≤ k → k < s.length → s.getD k ' ' ≠ '\n' := by
  have hgd : ∀ (m : Nat) (d : Char),
      (s.drop pos).getD m d = s.getD (pos + m) d := by
    intro m d
    simp [List.getD_eq_getElem?_getD, List.getElem?_drop]
  have hdl : (s.drop pos).length = s.length - pos := List.length_drop pos s
  intro k hk1 hk2
  have hsub : pos + (k - pos) = k := by omega
  have := findNlAux_none_spec (s.drop pos) pos h (k - pos) (by omega)
  rw [hgd, hsub] at this
  exact this

theorem findNl_decomp (s : List Char) (pos nl : Nat)
    (h : findNl s pos = some nl) :
    s.drop pos = (s.drop pos).take (nl - pos) ++ '\n' :: s.drop (nl + 1) := by
  obtain ⟨h1, h2, h3, h4⟩ := findNl_some_spec s pos nl h
  have hdd : (s.drop pos).drop (nl - pos) = s.drop nl := by
    rw [List.drop_drop]
    congr 1
    omega
  have hnl : s.drop nl = '\n' :: s.drop (nl + 1) := by
    rw [List.drop_eq_getElem_cons h2]
    congr 1
    rw [List.getD_eq_getElem?_getD, List.getElem?_eq_getElem h2] at h3
    simpa using h3
  calc s.drop pos
      = (s.drop pos).take (nl - pos) ++ (s.drop pos).drop (nl - pos) :=
        (List.take_append_drop _ _).symm
    _ = (s.drop pos).take (nl - pos) ++ '\n' :: s.drop (nl + 1) := by
        rw [hdd, hnl]

theorem findNl_take_count (s : List Char) (pos nl : Nat)
    (h : findNl s pos = some nl) :
    ((s.drop pos).take (nl - pos)).count '\n' = 0 := by
  obtain ⟨h1, h2, h3, h4⟩ := findNl_some_spec s pos nl h
  rw [List.count_eq_zero]
  intro hmem
  obtain ⟨k, hk, hck⟩ := List.mem_iff_getElem.mp hmem
  have hkt : k < nl - pos := by
    have := hk
    simp [List.length_take] at this
    omega
  have hkd : ((s.drop pos).take (nl - pos)).getD k ' ' = '\n' := by
    rw [List.getD_eq_getElem?_getD, List.getElem?_eq_getElem hk]
    simpa using hck
  rw [List.getD_eq_getElem?_getD, List.getElem?_take_of_lt hkt,
    List.getElem?_drop] at hkd
  have := h4 (pos + k) (by omega) (by omega)
  rw [List.getD_eq_getElem?_getD] at this
  exact this hkd

theorem split_lines_from_none (L : attr_line_t) (pos : Nat)
    (lines : List attr_line_t) (h : findNl L.al_string pos = none) :
    split_lines_from L pos lines
      = lines ++ [L.subline pos (L.al_string.length - pos)] := by
  conv_lhs => rw [split_lines_from.eq_def]
  split
  · rename_i nl heq
    rw [h] at heq
    cases heq
  · rfl

theorem split_lines_from_some (L : attr_line_t) (pos nl : Nat)
    (lines : List attr_line_t) (h : findNl L.al_string pos = some nl) :
    split_lines_from L pos lines
      = split_lines_from L (nl + 1) (lines ++ [L.subline pos (nl - pos)]) := by
  conv_lhs => rw [split_lines_from.eq_def]
  split
  · rename_i nl2 heq
    rw [h] at heq
    cases heq
    rfl
  · rename_i heq
    rw [h] at heq
    cases heq

theorem split_lines_from_acc_aux (L : attr_line_t) :
    ∀ (n pos : Nat), L.al_string.length - pos = n →
      ∀ acc : List attr_line_t,
        split_lines_from L pos acc = acc ++ split_lines_from L pos [] := by
  intro n
  induction n using Nat.strong_induction_on with
  | _ n ih =>
    intro pos hn acc
    cases hf : findNl L.al_string pos with
    | none =>
      rw [split_lines_from_none L pos acc hf, split_lines_from_none L pos [] hf]
      simp
    | some nl =>
      obtain ⟨h1, h2, h3, h4⟩ := findNl_some_spec L.al_string pos nl hf
      rw [split_lines_from_some L pos nl acc hf,
        split_lines_from_some L pos nl [] hf]
      rw [ih (L.al_string.length - (nl + 1)) (by omega) (nl + 1) rfl
        (acc ++ [L.subline pos (nl - pos)])]
      rw [ih (L.al_string.length - (nl + 1)) (by omega) (nl + 1) rfl
        ([] ++ [L.subline pos (nl - pos)])]
      simp

theorem split_lines_from_acc (L : attr_line_t) (pos : Nat)
    (acc : List attr_line_t) :
    split_lines_from L pos acc = acc ++ split_lines_from L pos [] :=
  split_lines_from_acc_aux L (L.al_string.length - pos) pos rfl acc

theorem split_lines_from_ne_nil (L : attr_line_t) (pos : Nat) :
    split_lines_from L pos [] ≠ [] := by
  cases hf : findNl L.al_string pos with
  | none =>
    rw [split_lines_from_none L pos [] hf]
    simp
  | some nl =>
    rw [split_lines_from_some L pos nl [] hf, split_lines_from_acc]
    simp

theorem join_with_nl_cons (x : attr_line_t) (rest : List attr_line_t)
    (h : rest ≠ []) :
    join_with_nl (x :: rest) = x.al_string ++ '\n' :: join_with_nl rest := by
  cases rest with
  | nil => exact absurd rfl h
  | cons y t => rfl

theorem split_lines_master (L : attr_line_t) :
    ∀ (n pos : Nat), L.al_string.length - pos = n → pos ≤ L.al_string.length →
      join_with_nl (split_lines_from L pos []) = L.al_string.drop pos ∧
      (split_lines_from L pos []).length
        = (L.al_string.drop pos).count '\n' + 1 ∧
      ((L.al_string.drop pos).getLast? = some '\n' →
        ((split_lines_from L pos []).getLast?).map (fun l => l.al_string)
          = some []) := by
  intro n
  induction n using Nat.strong_induction_on with
  | _ n ih =>
    intro pos hn hpos
    cases hf : findNl L.al_string pos with
    | none =>
      rw [split_lines_from_none L pos [] hf]
      simp only [List.nil_append]
      have hsub : (L.subline pos (L.al_string.length - pos)).al_string
          = L.al_string.drop pos := by
        show (L.al_string.drop pos).take (L.al_string.length - pos)
          = L.al_string.drop pos
        have hld : L.al_string.length - pos = (L.al_string.drop pos).length := by
          simp
        rw [hld, List.take_length]
      have hcount : (L.al_string.drop pos).count '\n' = 0 := by
        rw [List.count_eq_zero]
        intro hmem
        obtain ⟨k, hk, hck⟩ := List.mem_iff_getElem.mp hmem
        have hlen : k < L.al_string.length - pos := by simpa using hk
        have hno := findNl_none_spec L.al_string pos hf (pos + k) (by omega)
          (by omega)
        rw [List.getD_eq_getElem?_getD] at hno
        apply hno
        rw [← List.getElem?_drop, List.getElem?_eq_getElem hk]
        simpa using hck
      refine ⟨by simpa [join_with_nl] using hsub, by simp [hcount], ?_⟩
      intro hlast
      exfalso
      have hne : L.al_string.drop pos ≠ [] := by
        intro hnil
        rw [hnil] at hlast
        simp at hlast
      have hplen : pos < L.al_string.length := by
        by_contra hge
        exact hne (List.drop_eq_nil_of_le (by omega))
      have hlen2 : (L.al_string.drop pos).length = L.al_string.length - pos := by
        simp
      rw [List.getLast?_eq_getElem?, List.getElem?_drop, hlen2] at hlast
      have hidx : pos + (L.al_string.length - pos - 1)
          = L.al_string.length - 1 := by omega
      rw [hidx] at hlast
      have hno := findNl_none_spec L.al_string pos hf (L.al_string.length - 1)
        (by omega) (by omega)
      rw [List.getD_eq_getElem?_getD] at hno
      apply hno
      simp [hlast]
    | some nl =>
      obtain ⟨h1, h2, h3, h4⟩ := findNl_some_spec L.al_string pos nl hf
      have hdecomp := findNl_decomp L.al_string pos nl hf
      have hcnt0 := findNl_take_count L.al_string pos nl hf
      rw [split_lines_from_some L pos nl [] hf, split_lines_from_acc]
      simp only [List.nil_append]
      obtain ⟨ja, jb, jc⟩ := ih (L.al_string.length - (nl + 1)) (by omega)
        (nl + 1) rfl (by omega)
      have hrest := split_lines_from_ne_nil L (nl + 1)
      have hxs : (L.subline pos (nl - pos)).al_string
          = (L.al_string.drop pos).take (nl - pos) := rfl
      have hcons : ([L.subline pos (nl - pos)] ++ split_lines_from L (nl + 1) [])
          = (L.subline pos (nl - pos)) :: split_lines_from L (nl + 1) [] := rfl
      rw [hcons]
      refine ⟨?_, ?_, ?_⟩
      · rw [join_with_nl_cons _ _ hrest, ja, hxs]
        conv_rhs => rw [hdecomp]
      · rw [List.length_cons, jb]
        conv_rhs => rw [hdecomp]
        rw [List.count_append]
        simp [hcnt0]
      · intro hlast
        cases hgl : (split_lines_from L (nl + 1) []).getLast? with
        | none => exact absurd (List.getLast?_eq_none_iff.mp hgl) hrest
        | some g =>
          have hglcons : ((L.subline pos (nl - pos))
              :: split_lines_from L (nl + 1) []).getLast? = some g := by
            have : ((L.subline pos (nl - pos))
                :: split_lines_from L (nl + 1) [])
                = [L.subline pos (nl - pos)] ++ split_lines_from L (nl + 1) [] :=
              rfl
            rw [this, List.getLast?_append, hgl, Option.or_some]
          rw [hglcons]
          by_cases hd : L.al_string.drop (nl + 1) = []
          · have hf2 : findNl L.al_string (nl + 1) = none := by
              unfold findNl
              rw [hd]
              rfl
            rw [split_lines_from_none L (nl + 1) [] hf2] at hgl
            simp only [List.nil_append] at hgl
            have hg : g = L.subline (nl + 1)
                (L.al_string.length - (nl + 1)) := by
              have := hgl
              simp at this
              exact this.symm
            rw [hg]
            have : (L.subline (nl + 1)
                (L.al_string.length - (nl + 1))).al_string = [] := by
              show (L.al_string.drop (nl + 1)).take
                (L.al_string.length - (nl + 1)) = []
              rw [hd]
              simp
            simp [this]
          · have hlast2 : (L.al_string.drop (nl + 1)).getLast? = some '\n' := by
              rw [hdecomp] at hlast
              cases hgB : (L.al_string.drop (nl + 1)).getLast? with
              | none => exact absurd (List.getLast?_eq_none_iff.mp hgB) hd
              | some gB =>
                have hstep : ('\n' :: L.al_string.drop (nl + 1))
                    = ['\n'] ++ L.al_string.drop (nl + 1) := rfl
                rw [List.getLast?_append, hstep, List.getLast?_append, hgB,
                  Option.or_some, Option.or_some] at hlast
                exact hlast
            have := jc hlast2
            rw [hgl] at this
            simpa using this

/-- Claim C5: joining the strings of `split_lines` with `'\n'`
reconstructs the original string exactly; `split_lines` produces one
entry per line (newline count plus one), with a trailing empty line when
the string ends in `'\n'`; and a string with no newline yields exactly
the single element `subline(0, length)`, whose string equals the
original. -/
theorem split_lines_round_trip (L : attr_line_t) :
    join_with_nl (L.split_lines []) = L.al_string ∧
    (L.split_lines []).length = L.al_string.count '\n' + 1 ∧
    (L.al_string.getLast? = some '\n' →
      ((L.split_lines []).getLast?).map (fun l => l.al_string) = some []) ∧
    (L.al_string.count '\n' = 0 →
      L.split_lines [] = [L.subline 0 (L.al_string.length - 0)] ∧
      (L.split_lines []).map (fun l => l.al_string) = [L.al_string]) := by
  obtain ⟨ja, jb, jc⟩ := split_lines_master L (L.al_string.length - 0) 0 rfl
    (by omega)
  have hdrop : L.al_string.drop 0 = L.al_string := by simp
  rw [hdrop] at ja jb jc
  refine ⟨?_, ?_, ?_, ?_⟩
  · simp only [attr_line_t.split_lines]
    exact ja
  · simp only [attr_line_t.split_lines]
    exact jb
  · intro h
    simp only [attr_line_t.split_lines]
    exact jc h
  · intro hcnt
    have hnone : findNl L.al_string 0 = none := by
      unfold findNl
      apply findNlAux_eq_none_of
      intro c hc hcn
      subst hcn
      have hmem : ('\n' : Char) ∈ L.al_string := by simpa using hc
      exact absurd hmem (List.count_eq_zero.mp hcnt)
    have hsplit0 : split_lines_from L 0 []
        = [L.subline 0 (L.al_string.length - 0)] := by
      rw [split_lines_from_none L 0 [] hnone]
      simp
    constructor
    · simp only [attr_line_t.split_lines]
      exact hsplit0
    · simp only [attr_line_t.split_lines]
      rw [hsplit0]
      have hstr : (L.subline 0 L.al_string.length).al_string
          = L.al_string := by
        show (L.al_string.drop 0).take L.al_string.length = L.al_string
        simp
      simp [hstr]

/-- Witness for C5: the trailing-newline conclusion at `"a\n"` (last line
empty) and the no-newline conclusion at `"h"` (a single element whose
string is the whole line). -/
theorem split_lines_round_trip_witness :
    (((⟨['a', '\n'], []⟩ : attr_line_t).split_lines []).getLast?).map
      (fun l => l.al_string) = some [] ∧
    (⟨['h'], []⟩ : attr_line_t).split_lines []
      = [(⟨['h'], []⟩ : attr_line_t).subline 0
          ((⟨['h'], []⟩ : attr_line_t).al_string.length - 0)] ∧
    ((⟨['h'], []⟩ : attr_line_t).split_lines []).map (fun l => l.al_string)
      = [(⟨['h'], []⟩ : attr_line_t).al_string] :=
  ⟨(split_lines_round_trip ⟨['a', '\n'], []⟩).2.2.1 (by decide),
   ((split_lines_round_trip ⟨['h'], []⟩).2.2.2 (by decide)).1,
   ((split_lines_round_trip ⟨['h'], []⟩).2.2.2 (by decide)).2⟩

/-- Claim C10: `split_lines` appends to the caller-supplied vector without
clearing it — the first `k` elements of the output are the input vector
unchanged and the lines of `L` follow them. -/
theorem split_lines_appends (L : attr_line_t) (v : List attr_line_t) :
    (L.split_lines v).take v.length = v ∧
    (L.split_lines v).drop v.length = L.split_lines [] ∧
    L.split_lines v = v ++ L.split_lines [] := by
  have hacc : L.split_lines v = v ++ L.split_lines [] := by
    simp only [attr_line_t.split_lines]
    exact split_lines_from_acc L 0 v
  refine ⟨?_, ?_, hacc⟩
  · rw [hacc]
    exact List.take_left v _
  · rw [hacc]
    exact List.drop_left v _

/-! ### C6: match_color -/

theorem match_color_go_spec (t : lab_color) :
    ∀ (p : List xterm_color) (lowest : ℝ) (id : Int),
      id ≠ -1 → (∀ xc ∈ p, xc.xc_id ≠ -1) →
      ((match_color_go t p lowest id = id ∧
        ∀ xc ∈ p, lowest ≤ deltaE xc.xc_lab_color t) ∨
      (∃ i, ∃ hi : i < p.length,
        match_color_go t p lowest id = (p[i]).xc_id ∧
        deltaE (p[i]).xc_lab_color t < lowest ∧
        (∀ j, ∀ hj : j < p.length,
          deltaE (p[i]).xc_lab_color t ≤ deltaE (p[j]).xc_lab_color t) ∧
        (∀ j, ∀ hj : j < p.length, j < i →
          deltaE (p[i]).xc_lab_color t < deltaE (p[j]).xc_lab_color t))) := by
  intro p
  induction p with
  | nil =>
    intro lowest id hid hall
    left
    constructor
    · rfl
    · intro xc hxc
      simp at hxc
  | cons xc rest ih =>
    intro lowest id hid hall
    have hxcid : xc.xc_id ≠ -1 := hall xc (by simp)
    have hallr : ∀ x ∈ rest, x.xc_id ≠ -1 := fun x hx => hall x (by simp [hx])
    simp only [match_color_go, if_neg hid]
    by_cases hd : deltaE xc.xc_lab_color t < lowest
    · rw [if_pos hd]
      rcases ih (deltaE xc.xc_lab_color t) xc.xc_id hxcid hallr with
        ⟨heq, hge⟩ | ⟨i, hi, heq, hlt, hmin, hfirst⟩
      · right
        refine ⟨0, by simp, by simpa using heq, by simpa using hd, ?_, ?_⟩
        · intro j hj
          rcases j with _ | j'
          · simp
          · simp only [List.getElem_cons_zero, List.getElem_cons_succ]
            have hj' : j' < rest.length := by simpa using hj
            exact hge (rest[j']) (List.getElem_mem _)
        · intro j hj hj0
          omega
      · right
        refine ⟨i + 1, by simpa using Nat.succ_lt_succ hi,
          by simpa using heq, lt_trans hlt hd, ?_, ?_⟩
        · intro j hj
          rcases j with _ | j'
          · simpa using le_of_lt hlt
          · simpa using hmin j' (by simpa using hj)
        · intro j hj hji
          rcases j with _ | j'
          · simpa using hlt
          · exact hfirst j' (by simpa using hj) (by omega)
    · rw [if_neg hd]
      have hld : lowest ≤ deltaE xc.xc_lab_color t := le_of_not_lt hd
      rcases ih lowest id hid hallr with
        ⟨heq, hge⟩ | ⟨i, hi, heq, hlt, hmin, hfirst⟩
      · left
        refine ⟨heq, ?_⟩
        intro x hx
        rcases List.mem_cons.mp hx with hx | hx
        · rw [hx]
          exact hld
        · exact hge x hx
      · right
        refine ⟨i + 1, by simpa using Nat.succ_lt_succ hi,
          by simpa using heq, hlt, ?_, ?_⟩
        · intro j hj
          rcases j with _ | j'
          · simpa using le_of_lt (lt_of_lt_of_le hlt hld)
          · simpa using hmin j' (by simpa using hj)
        · intro j hj hji
          rcases j with _ | j'
          · simpa using lt_of_lt_of_le hlt hld
          · exact hfirst j' (by simpa using hj) (by omega)

/-- Claim C6: `match_color` returns the id of the palette entry at minimum
`deltaE` distance to the target, ties broken in favor of the first
encountered entry; when some entry's Lab value equals the target's, the
returned entry's Lab equals the target's, and if that entry's id is
unique among Lab-equal entries the returned id is exactly that entry's
id.  (The palette entries' ids are assumed different from the `-1`
not-found sentinel, as in the real table.) -/
theorem match_color_first_min (p : List xterm_color) (t : lab_color)
    (hne : p ≠ []) (hids : ∀ xc ∈ p, xc.xc_id ≠ -1) :
    ∃ i, ∃ hi : i < p.length,
      match_color p t = (p[i]).xc_id ∧
      (∀ j, ∀ hj : j < p.length,
        deltaE (p[i]).xc_lab_color t ≤ deltaE (p[j]).xc_lab_color t) ∧
      (∀ j, ∀ hj : j < p.length, j < i →
        deltaE (p[i]).xc_lab_color t < deltaE (p[j]).xc_lab_color t) ∧
      (∀ e ∈ p, e.xc_lab_color = t → (p[i]).xc_lab_color = t) ∧
      (∀ e ∈ p, e.xc_lab_color = t →
        (∀ x ∈ p, x.xc_lab_color = t → x.xc_id = e.xc_id) →
        match_color p t = e.xc_id) := by
  have hmain : ∃ i, ∃ hi : i < p.length,
      match_color p t = (p[i]).xc_id ∧
      (∀ j, ∀ hj : j < p.length,
        deltaE (p[i]).xc_lab_color t ≤ deltaE (p[j]).xc_lab_color t) ∧
      (∀ j, ∀ hj : j < p.length, j < i →
        deltaE (p[i]).xc_lab_color t < deltaE (p[j]).xc_lab_color t) := by
    cases p with
    | nil => exact absurd rfl hne
    | cons xc rest =>
      have hxcid : xc.xc_id ≠ -1 := hids xc (by simp)
      have hallr : ∀ x ∈ rest, x.xc_id ≠ -1 := fun x hx => hids x (by simp [hx])
      have hunf : match_color (xc :: rest) t
          = match_color_go t rest (deltaE xc.xc_lab_color t) xc.xc_id := by
        simp [match_color, match_color_go]
      rw [hunf]
      rcases match_color_go_spec t rest (deltaE xc.xc_lab_color t) xc.xc_id
          hxcid hallr with
        ⟨heq, hge⟩ | ⟨i, hi, heq, hlt, hmin, hfirst⟩
      · refine ⟨0, by simp, by simpa using heq, ?_, ?_⟩
        · intro j hj
          rcases j with _ | j'
          · simp
          · simp only [List.getElem_cons_zero, List.getElem_cons_succ]
            have hj' : j' < rest.length := by simpa using hj
            exact hge (rest[j']) (List.getElem_mem _)
        · intro j hj hj0
          omega
      · refine ⟨i + 1, by simpa using Nat.succ_lt_succ hi,
          by simpa using heq, ?_, ?_⟩
        · intro j hj
          rcases j with _ | j'
          · simpa using le_of_lt hlt
          · simpa using hmin j' (by simpa using hj)
        · intro j hj hji
          rcases j with _ | j'
          · simpa using hlt
          · exact hfirst j' (by simpa using hj) (by omega)
  obtain ⟨i, hi, heq, hmin, hfirst⟩ := hmain
  have hexact : ∀ e ∈ p, e.xc_lab_color = t → (p[i]).xc_lab_color = t := by
    intro e he hlab
    obtain ⟨j, hj, hje⟩ := List.mem_iff_getElem.mp he
    have h0 : deltaE (p[j]).xc_lab_color t = 0 := by
      rw [hje, hlab]
      exact deltaE_self t
    have hle := hmin j hj
    rw [h0] at hle
    have hge0 := deltaE_nonneg (p[i]).xc_lab_color t
    exact deltaE_eq_zero_imp _ _ (le_antisymm hle hge0)
  refine ⟨i, hi, heq, hmin, hfirst, hexact, ?_⟩
  intro e he hlab huniq
  have hlabi := hexact e he hlab
  have hmem : p[i] ∈ p := List.getElem_mem hi
  rw [heq]
  exact huniq (p[i]) hmem hlabi

/-- Witness for C6: the characterization applied to a one-entry palette
whose entry's Lab value equals the target's. -/
theorem match_color_first_min_witness :
    ∃ i, ∃ hi : i <
        ([⟨5, "c0", ⟨0, 0, 0⟩, ⟨0, 0, 0⟩⟩] : List xterm_color).length,
      match_color [⟨5, "c0", ⟨0, 0, 0⟩, ⟨0, 0, 0⟩⟩] ⟨0, 0, 0⟩
        = (([⟨5, "c0", ⟨0, 0, 0⟩, ⟨0, 0, 0⟩⟩] : List xterm_color)[i]).xc_id ∧
      (∀ j, ∀ hj : j <
          ([⟨5, "c0", ⟨0, 0, 0⟩, ⟨0, 0, 0⟩⟩] : List xterm_color).length,
        deltaE (([⟨5, "c0", ⟨0, 0, 0⟩, ⟨0, 0, 0⟩⟩] :
            List xterm_color)[i]).xc_lab_color ⟨0, 0, 0⟩
          ≤ deltaE (([⟨5, "c0", ⟨0, 0, 0⟩, ⟨0, 0, 0⟩⟩] :
            List xterm_color)[j]).xc_lab_color ⟨0, 0, 0⟩) ∧
      (∀ j, ∀ hj : j <
          ([⟨5, "c0", ⟨0, 0, 0⟩, ⟨0, 0, 0⟩⟩] : List xterm_color).length,
        j < i →
        deltaE (([⟨5, "c0", ⟨0, 0, 0⟩, ⟨0, 0, 0⟩⟩] :
            List xterm_color)[i]).xc_lab_color ⟨0, 0, 0⟩
          < deltaE (([⟨5, "c0", ⟨0, 0, 0⟩, ⟨0, 0, 0⟩⟩] :
            List xterm_color)[j]).xc_lab_color ⟨0, 0, 0⟩) ∧
      (∀ e ∈ ([⟨5, "c0", ⟨0, 0, 0⟩, ⟨0, 0, 0⟩⟩] : List xterm_color),
        e.xc_lab_color = ⟨0, 0, 0⟩ →
        (([⟨5, "c0", ⟨0, 0, 0⟩, ⟨0, 0, 0⟩⟩] :
          List xterm_color)[i]).xc_lab_color = ⟨0, 0, 0⟩) ∧
      (∀ e ∈ ([⟨5, "c0", ⟨0, 0, 0⟩, ⟨0, 0, 0⟩⟩] : List xterm_color),
        e.xc_lab_color = ⟨0, 0, 0⟩ →
        (∀ x ∈ ([⟨5, "c0", ⟨0, 0, 0⟩, ⟨0, 0, 0⟩⟩] : List xterm_color),
          x.xc_lab_color = ⟨0, 0, 0⟩ → x.xc_id = e.xc_id) →
        match_color [⟨5, "c0", ⟨0, 0, 0⟩, ⟨0, 0, 0⟩⟩] ⟨0, 0, 0⟩
          = e.xc_id) :=
  match_color_first_min [⟨5, "c0", ⟨0, 0, 0⟩, ⟨0, 0, 0⟩⟩] ⟨0, 0, 0⟩
    (by simp)
    (by
      intro xc hxc
      simp only [List.mem_singleton] at hxc
      subst hxc
      simp)
